import Mathlib

/-!
Shallow embedding of the document indexing and retrieval engine of
local-search-rs (src/search_model.rs and the model-handling part of
src/main.rs), together with theorems settling the frozen claims about it.

Modelling conventions:
* Rust `HashMap<String, usize>` / `HashMap<String, Document>` are modelled as
  association lists; `entry(..).or_insert(0) += 1` and `insert` are embedded as
  explicit list operations.
* `f64` arithmetic is modelled over `ℝ`; `f64::log2` is `Real.logb 2`.
* A Rust panic (any `.unwrap()` on a failing value) is modelled as `none` of an
  `Option`-valued result; `Result<T, ()>` is modelled as `Except Unit T`.
* The external crates `rust_stemmers` (English stemmer) and the Unicode
  classification / lowercasing primitives of `char`/`String` are not part of
  this repository; they are abstracted as the parameter record `TextOps`,
  which both indexing and querying share, exactly as the source shares one
  stemmer algorithm.
-/

/-- External text primitives used by the source: `char::is_alphanumeric`,
`char::is_whitespace`, `str::to_lowercase` and the `rust_stemmers` English
stemmer. The source uses the same stemmer at index time and at query time. -/
structure TextOps where
  isAlphanumeric : Char → Bool
  isWhitespace : Char → Bool
  lower : String → String
  stem : String → String

/-- The apostrophe character, spelled by code point. -/
def apostrophe : Char := Char.ofNat 39

/-- Embeds `*map.entry(word).or_insert(0) += 1`: increment the count of `k`,
inserting it with count 1 if absent. -/
def bump : List (String × Nat) → String → List (String × Nat)
  | [], k => [(k, 1)]
  | (k0, v) :: rest, k =>
      if k0 = k then (k0, v + 1) :: rest else (k0, v) :: bump rest k

/-- Embeds the `add_to_map` closure of `create_document_from_text`: a non-empty
word is lowercased, stemmed, and its count bumped in the map. -/
def addToMap (ops : TextOps) (word : String) (m : List (String × Nat)) :
    List (String × Nat) :=
  if word.isEmpty then m else bump m (ops.stem (ops.lower word))

/-- Embeds the body of the `for c in text.chars()` loop of
`create_document_from_text`, acting on the state (current_word, words_map). -/
def tokStep (ops : TextOps) (st : String × List (String × Nat)) (c : Char) :
    String × List (String × Nat) :=
  if ops.isAlphanumeric c || c == apostrophe || c == '-' then
    (st.1.push c, st.2)
  else
    let m := addToMap ops st.1 st.2
    let m := if !ops.isWhitespace c then addToMap ops (String.singleton c) m else m
    ("", m)

/-- Embeds `struct Document { words: HashMap<String, usize> }`. -/
structure Document where
  words : List (String × Nat)
deriving DecidableEq

/-- Embeds `create_document_from_text`: scan the characters, accumulating the
current word, then flush the final word. -/
def create_document_from_text (ops : TextOps) (text : List Char) : Document :=
  let st := text.foldl (tokStep ops) ("", [])
  ⟨addToMap ops st.1 st.2⟩

/-- Tokenizer restated from the spec's words, for the refinement claim: scan
character by character, accumulating a current word while characters are
alphanumeric, an apostrophe or a hyphen; on any other character flush the
current word, and if the terminating character is non-whitespace flush it as
its own single-character term; at end of input flush the remaining word. -/
def specTokenize (ops : TextOps) : List Char → String → List (String × Nat) →
    List (String × Nat)
  | [], cur, m => addToMap ops cur m
  | c :: cs, cur, m =>
      if ops.isAlphanumeric c || c == apostrophe || c == '-' then
        specTokenize ops cs (cur.push c) m
      else if ops.isWhitespace c then
        specTokenize ops cs "" (addToMap ops cur m)
      else
        specTokenize ops cs "" (addToMap ops (String.singleton c) (addToMap ops cur m))

/-- Embeds `HashMap<String, Document>`, the model/index. -/
abbrev Index := List (String × Document)

/-- Embeds `data.words.values().copied().sum::<usize>()`. -/
def totalCount (d : Document) : Nat := (d.words.map Prod.snd).sum

/-- Embeds `model.iter().filter(|(_, d)| d.words.contains_key(&t)).count()`:
the number of documents whose term map contains `t`. -/
def docFreq (model : Index) (t : String) : Nat :=
  (model.filter (fun pd => (List.lookup t pd.2.words).isSome)).length

/-- Embeds `en_stemmer.stem(&t.to_lowercase()).to_string()`. -/
def normalizeTerm (ops : TextOps) (t : String) : String := ops.stem (ops.lower t)

/-- The contribution of one query term to one document's score, as computed by
the body of the inner loop of `do_query`: 0 when the term is absent, otherwise
`tf * idf` with `tf = count / totalCount` and `idf = log2(N / df)`. -/
noncomputable def termContrib (ops : TextOps) (model : Index) (data : Document)
    (t : String) : ℝ :=
  match List.lookup (normalizeTerm ops t) data.words with
  | none => 0
  | some count =>
      ((count : ℝ) / (totalCount data : ℝ)) *
        Real.logb 2 ((model.length : ℝ) / (docFreq model (normalizeTerm ops t) : ℝ))

/-- Embeds the per-document scoring loop of `do_query`
(`let mut point = 0.0; for t in terms { ... point += tf * idf }`). -/
noncomputable def docScore (ops : TextOps) (model : Index) (data : Document)
    (terms : List String) : ℝ :=
  terms.foldl
    (fun point t =>
      match List.lookup (normalizeTerm ops t) data.words with
      | none => point
      | some count =>
          point +
            ((count : ℝ) / (totalCount data : ℝ)) *
              Real.logb 2 ((model.length : ℝ) / (docFreq model (normalizeTerm ops t) : ℝ)))
    0

/-- Embeds the comparator `|(_, b1), (_, a1)| a1.total_cmp(b1)` passed to
`sort_by`: element `x` precedes element `y` when `x`'s score is the larger
(descending order). `f64::total_cmp` is a total order; over `ℝ` it coincides
with the usual order. -/
noncomputable def byDescendingScore (x y : String × ℝ) : Bool := decide (y.2 ≤ x.2)

/-- Embeds `do_query`: score every document of the model, sort descending by
score with the total comparator, drop scores equal to 0, return paths only. -/
noncomputable def do_query (ops : TextOps) (model : Index) (terms : List String) :
    List String :=
  let docs := model.map (fun pd => (pd.1, docScore ops model pd.2 terms))
  let sorted := docs.mergeSort byDescendingScore
  (sorted.filter (fun pd => decide (pd.2 ≠ 0))).map Prod.fst

/-!
File and directory model for `analyze_file` / `analyze_dir`.

A Rust panic is modelled as `none`. In `analyze_file` the panics are:
`p.extension().unwrap()`-adjacent `s.to_str().unwrap()` (extension bytes not
valid UTF-8), `std::fs::File::open(p).unwrap()` (unopenable XML file),
`lopdf::Document::load(&p).unwrap()` (unreadable or malformed PDF), and
`doc.extract_text(&page_nums).unwrap()` (PDF text extraction failure).
-/

/-- Embeds the events delivered by `xml::EventReader`: character data,
a parse error on an individual event (logged and skipped by the source), or
any other event kind (ignored by the source). -/
inductive XmlEvent where
  | characters (s : String)
  | parseError
  | otherEvent
deriving DecidableEq

/-- Embeds a successfully loaded `lopdf::Document`: whether it reports itself
encrypted, and the result of `extract_text` over all of its pages
(`none` models an extraction failure, which the source unwraps). -/
structure PdfDoc where
  encrypted : Bool
  extractedText : Option (List Char)
deriving DecidableEq

/-- What the filesystem presents for one file. `extension = none` models a
path with no extension; `extension = some none` models an extension whose
bytes are not valid UTF-8 (so `to_str()` returns `None`); `openable` models
whether `File::open` succeeds; `pdfLoad = none` models a `lopdf` load failure
(unreadable or malformed PDF). -/
structure FileInfo where
  extension : Option (Option String)
  openable : Bool
  xmlEvents : List XmlEvent
  pdfLoad : Option PdfDoc
deriving DecidableEq

/-- Embeds `enum FileType { Xml, Pdf }`. -/
inductive FileType where
  | Xml
  | Pdf
deriving DecidableEq

/-- Embeds `impl FromStr for FileType`: a case-sensitive match of the
extension string against "xml" | "xhtml" | "pdf"; anything else is an error. -/
def FileType.from_str (s : String) : Option FileType :=
  if s = "xml" || s = "xhtml" then some FileType.Xml
  else if s = "pdf" then some FileType.Pdf
  else none

/-- Embeds the XML text assembly loop: concatenate every character-data
event's text followed by a single space; errors and other events add
nothing. -/
def xmlText (events : List XmlEvent) : List Char :=
  (events.foldl
    (fun acc e =>
      match e with
      | XmlEvent.characters c => acc ++ c ++ " "
      | _ => acc)
    "").data

/-- Embeds `analyze_file`. Outer `none` is a panic; `some (Except.error ())`
is the source's `Err(())` (file skipped); `some (Except.ok (path, doc))` is a
successfully analyzed file. -/
def analyze_file (ops : TextOps) (path : String) (f : FileInfo) :
    Option (Except Unit (String × Document)) :=
  match f.extension with
  | none => some (Except.error ())
  | some none => none
  | some (some s) =>
      match FileType.from_str s with
      | some FileType.Xml =>
          if f.openable then
            some (Except.ok (path, create_document_from_text ops (xmlText f.xmlEvents)))
          else none
      | some FileType.Pdf =>
          match f.pdfLoad with
          | none => none
          | some doc =>
              if doc.encrypted then some (Except.error ())
              else
                match doc.extractedText with
                | none => none
                | some t => some (Except.ok (path, create_document_from_text ops t))
      | none => some (Except.error ())

/-- One entry of a directory listing: a file with its content model, a
subdirectory whose `read_dir` fails, or a readable subdirectory with its own
entries. (`d.metadata().unwrap()` is assumed to succeed: the entry kind is
part of the model.) -/
inductive Entry where
  | file (path : String) (info : FileInfo) : Entry
  | unreadableDir : Entry
  | readableDir (entries : List Entry) : Entry

/-- Embeds `map.insert(k, v)` on `HashMap<String, Document>`: replace the
value of an existing key, otherwise append. -/
def insertDoc : List (String × Document) → String → Document → List (String × Document)
  | [], k, v => [(k, v)]
  | (k0, v0) :: rest, k, v =>
      if k0 = k then (k0, v) :: rest else (k0, v0) :: insertDoc rest k v

mutual

/-- Embeds the handling of one directory entry inside `analyze_dir`'s loop:
a file is analyzed (a panic propagates, an `Err` file contributes nothing, an
`Ok` file contributes its single binding); a subdirectory is walked
recursively (the source spawns a thread and `join().unwrap().unwrap()`s it, so
a panic in the subtree propagates; a failing `read_dir().unwrap()` in the
subtree is such a panic). -/
def analyzeEntry (ops : TextOps) : Entry → Option (List (String × Document))
  | Entry.file p i =>
      match analyze_file ops p i with
      | none => none
      | some (Except.error _) => some []
      | some (Except.ok (k, v)) => some [(k, v)]
  | Entry.unreadableDir => none
  | Entry.readableDir es => analyzeList ops es []

/-- Embeds `analyze_dir`'s loop over the entries of one directory, threading
the map being built; each entry's bindings are merged with `insert`. The
source performs subtree merges after the file loop via thread joins; since a
panic anywhere aborts the join loop as well, sequencing the merges inline is
observationally the same. -/
def analyzeList (ops : TextOps) :
    List Entry → List (String × Document) → Option (List (String × Document))
  | [], acc => some acc
  | e :: rest, acc =>
      match analyzeEntry ops e with
      | none => none
      | some m => analyzeList ops rest (m.foldl (fun a kv => insertDoc a kv.1 kv.2) acc)

end

/-- Embeds `analyze_dir` on a directory: `none` as input models a directory
whose `read_dir()` fails, which the source unwraps (panic). -/
def analyze_dir (ops : TextOps) : Option (List Entry) → Option (List (String × Document))
  | none => none
  | some es => analyzeList ops es []

/-!
Index Store. Modelled from the spec: the serialization itself is performed by
the external `wincode` crate (`wincode::serialize` / `wincode::deserialize`
with derived `SchemaRead`/`SchemaWrite`), whose code is not part of this
repository. Following the spec's contract — "persist and restore an Index as
an opaque binary blob", "self-describing enough to reconstruct the
path→term-count mapping exactly", round-tripping "without loss of term
counts, term strings, or path strings" — the blob is modelled as a
length-prefixed byte sequence: naturals as base-128 varints, strings as a
character count followed by the code points, maps as an entry count followed
by the entries. Deserialization of a blob that cannot be parsed (or has
trailing bytes) fails, modelling a `wincode` deserialization error.
-/

/-- Modelled from the spec: encode a natural as a little-endian base-128
varint (low 7 bits per byte, high bit set on every byte but the last). -/
def encodeVar (n : Nat) : List Nat :=
  if h : n < 128 then [n]
  else
    have : n / 128 < n := Nat.div_lt_self (Nat.lt_of_lt_of_le (by norm_num) (Nat.le_of_not_lt h)) (by norm_num)
    (n % 128 + 128) :: encodeVar (n / 128)

/-- Modelled from the spec: decode one varint, returning the value and the
remaining bytes, or `none` if the input ends inside a varint. -/
def decodeVar : List Nat → Option (Nat × List Nat)
  | [] => none
  | b :: rest =>
      if b < 128 then some (b, rest)
      else
        match decodeVar rest with
        | none => none
        | some (m, rest2) => some ((b - 128) + 128 * m, rest2)

/-- Modelled from the spec: a string is its character count followed by the
code point of each character, each as a varint. -/
def encodeString (s : String) : List Nat :=
  encodeVar s.data.length ++ s.data.foldr (fun c acc => encodeVar c.toNat ++ acc) []

/-- Modelled from the spec: decode exactly `k` characters. -/
def decodeChars : Nat → List Nat → Option (List Char × List Nat)
  | 0, rest => some ([], rest)
  | k + 1, bytes =>
      match decodeVar bytes with
      | none => none
      | some (c, rest) =>
          match decodeChars k rest with
          | none => none
          | some (cs, rest2) => some (Char.ofNat c :: cs, rest2)

/-- Modelled from the spec: decode one string. -/
def decodeString (bytes : List Nat) : Option (String × List Nat) :=
  match decodeVar bytes with
  | none => none
  | some (k, rest) =>
      match decodeChars k rest with
      | none => none
      | some (cs, rest2) => some (String.mk cs, rest2)

/-- Modelled from the spec: the entries of a term-count map, in order. -/
def encodeWords : List (String × Nat) → List Nat
  | [] => []
  | (k, v) :: rest => encodeString k ++ encodeVar v ++ encodeWords rest

/-- Modelled from the spec: decode exactly `k` term-count entries. -/
def decodeWords : Nat → List Nat → Option (List (String × Nat) × List Nat)
  | 0, rest => some ([], rest)
  | k + 1, bytes =>
      match decodeString bytes with
      | none => none
      | some (s, r1) =>
          match decodeVar r1 with
          | none => none
          | some (v, r2) =>
              match decodeWords k r2 with
              | none => none
              | some (l, r3) => some ((s, v) :: l, r3)

/-- Modelled from the spec: a Document is its entry count followed by its
entries. -/
def encodeDocument (d : Document) : List Nat :=
  encodeVar d.words.length ++ encodeWords d.words

/-- Modelled from the spec: decode one Document. -/
def decodeDocument (bytes : List Nat) : Option (Document × List Nat) :=
  match decodeVar bytes with
  | none => none
  | some (k, rest) =>
      match decodeWords k rest with
      | none => none
      | some (w, rest2) => some (⟨w⟩, rest2)

/-- Modelled from the spec: the entries of an Index, in order. -/
def encodeEntries : List (String × Document) → List Nat
  | [] => []
  | (p, d) :: rest => encodeString p ++ encodeDocument d ++ encodeEntries rest

/-- Modelled from the spec: decode exactly `k` Index entries. -/
def decodeEntries : Nat → List Nat → Option (List (String × Document) × List Nat)
  | 0, rest => some ([], rest)
  | k + 1, bytes =>
      match decodeString bytes with
      | none => none
      | some (p, r1) =>
          match decodeDocument r1 with
          | none => none
          | some (d, r2) =>
              match decodeEntries k r2 with
              | none => none
              | some (l, r3) => some ((p, d) :: l, r3)

/-- Modelled from the spec: `wincode::serialize` of the whole Index. -/
def encodeIndex (m : Index) : List Nat :=
  encodeVar m.length ++ encodeEntries m

/-- Modelled from the spec: `wincode::deserialize` of the whole Index; the
entire buffer must be consumed. -/
def decodeIndex (bytes : List Nat) : Option Index :=
  match decodeVar bytes with
  | none => none
  | some (k, rest) =>
      match decodeEntries k rest with
      | none => none
      | some (m, []) => some m
      | some (_, _ :: _) => none

/-- Embeds the rebuild loop shared by `App::init_model`'s else-branch and
`App::refresh_model`: walk each configured document directory with
`analyze_dir(..).unwrap()` and insert every resulting binding. A panic in any
walk (modelled `none`) aborts the run. -/
def buildModel (ops : TextOps) (dirs : List (Option (List Entry))) : Option Index :=
  dirs.foldl
    (fun acc d =>
      match acc, analyze_dir ops d with
      | some m, some m2 => some (m2.foldl (fun a kv => insertDoc a kv.1 kv.2) m)
      | _, _ => none)
    (some [])

/-- Embeds `App::init_model`: if the index file exists (`persisted = some
bytes`), read it and `wincode::deserialize(&bytes).unwrap()` — a
deserialization failure panics; otherwise rebuild from the configured
directories (and save the result, a side effect outside this model). -/
def init_model (ops : TextOps) (persisted : Option (List Nat))
    (dirs : List (Option (List Entry))) : Option Index :=
  match persisted with
  | some bytes =>
      match decodeIndex bytes with
      | none => none
      | some m => some m
  | none => buildModel ops dirs

/-!
Concrete fixtures used by closed theorems and witnesses.
-/

/-- Concrete `TextOps` instantiation for evaluating the model on examples
(identity stemmer, ASCII-oriented classifiers). -/
def testOps : TextOps :=
  ⟨Char.isAlphanum, Char.isWhitespace, fun s => String.mk (s.data.map Char.toLower), id⟩

/-- A `.pdf` file that loads and reports itself encrypted. -/
def encryptedPdf : FileInfo := ⟨some (some "pdf"), true, [], some ⟨true, none⟩⟩

/-- A `.pdf` file whose bytes `lopdf` fails to parse (malformed PDF). -/
def malformedPdf : FileInfo := ⟨some (some "pdf"), true, [], none⟩

/-- A well-formed `.xml` file containing the character data "hello". -/
def goodXml : FileInfo := ⟨some (some "xml"), true, [XmlEvent.characters "hello"], none⟩

/-- A file whose extension bytes are not valid UTF-8. -/
def nonUtf8Ext : FileInfo := ⟨some none, true, [], none⟩

/-- A `.txt` file: extension outside the allow-list. -/
def txtFile : FileInfo := ⟨some (some "txt"), true, [], none⟩

/-- Witness document containing only the term "a". -/
def wDoc : Document := ⟨[("a", 1)]⟩

/-- Witness index containing only `wDoc` at path "p". -/
def wModel : Index := [("p", wDoc)]
/-!
Theorems settling the claims.
-/

/-- C2: the claim states that malformed or unreadable content never crashes
indexing and degrades to skipping the single file. The code contradicts this:
an encrypted PDF is indeed skipped gracefully (first conjunct, matching the
spec's concrete scenario), and XML event errors are tolerated (second
conjunct), but a PDF that `lopdf` cannot parse panics via
`lopdf::Document::load(&p).unwrap()` (third conjunct), and that panic aborts
the surrounding directory walk even though a healthy sibling file is present
(fourth conjunct). -/
theorem extraction_panic_on_malformed_pdf :
    analyze_file testOps "a/enc.pdf" encryptedPdf = some (Except.error ()) ∧
    analyze_file testOps "a/err.xml" ⟨some (some "xml"), true, [XmlEvent.parseError, XmlEvent.characters "ok"], none⟩
      = some (Except.ok ("a/err.xml", ⟨[("ok", 1)]⟩)) ∧
    analyze_file testOps "a/bad.pdf" malformedPdf = none ∧
    analyze_dir testOps
      (some [Entry.file "a/bad.pdf" malformedPdf, Entry.file "a/good.xml" goodXml]) = none :=
  ⟨rfl, rfl, rfl, rfl⟩

/-- C3: the claim states that a directory read failure abandons only that
subtree and sibling subtrees still contribute. The code contradicts this: a
subtree whose `read_dir()` fails panics (`p.read_dir().unwrap()`), the panic
crosses the thread boundary through `p.join().unwrap()`, and the whole walk
returns nothing — even though the sibling subtree on its own would have
contributed a document (second conjunct). -/
theorem dir_read_failure_aborts_run :
    analyze_dir testOps
      (some [Entry.unreadableDir, Entry.readableDir [Entry.file "g.xml" goodXml]]) = none ∧
    analyze_dir testOps (some [Entry.readableDir [Entry.file "g.xml" goodXml]])
      = some [("g.xml", ⟨[("hello", 1)]⟩)] :=
  ⟨rfl, rfl⟩

/-- C9 counterexample: the claim states that every file whose extension is
outside the allow-list is skipped non-fatally. A file whose extension bytes
are not valid UTF-8 is outside the allow-list, yet the source panics on it at
`s.to_str().unwrap()` — a fatal outcome, not a skip. -/
theorem non_utf8_extension_panic :
    analyze_file testOps "weird" nonUtf8Ext = none ∧
    analyze_dir testOps (some [Entry.file "weird" nonUtf8Ext]) = none :=
  ⟨rfl, rfl⟩

/-- C9 amended: dispatch is a case-sensitive match of the extension against
"xml" | "xhtml" | "pdf"; a file with no extension, or with an extension that
is valid UTF-8 but outside the allow-list, fails non-fatally: `analyze_file`
returns `Err(())`, and such a file is skipped while the directory walk
continues unaffected. (A file whose extension is not valid UTF-8 instead
panics; see the counterexample.) -/
theorem extension_dispatch_behavior (ops : TextOps) (path : String) (info : FileInfo)
    (rest : List Entry) (acc : List (String × Document)) :
    (info.extension = none → analyze_file ops path info = some (Except.error ())) ∧
    (∀ s, info.extension = some (some s) →
      s ≠ "xml" → s ≠ "xhtml" → s ≠ "pdf" →
      analyze_file ops path info = some (Except.error ())) ∧
    (analyze_file ops path info = some (Except.error ()) →
      analyzeList ops (Entry.file path info :: rest) acc = analyzeList ops rest acc) := by
  refine ⟨?_, ?_, ?_⟩
  · intro h
    simp [analyze_file, h]
  · intro s hs h1 h2 h3
    simp [analyze_file, hs, FileType.from_str, h1, h2, h3]
  · intro h
    simp [analyzeList, analyzeEntry, h]

/-- C9 amended, witness: a `.txt` file is skipped non-fatally and the walk
continues. -/
theorem extension_dispatch_behavior_witness :
    txtFile.extension = some (some "txt") ∧
    analyze_file testOps "n.txt" txtFile = some (Except.error ()) ∧
    analyzeList testOps [Entry.file "n.txt" txtFile, Entry.file "g.xml" goodXml] []
      = analyzeList testOps [Entry.file "g.xml" goodXml] [] := by
  have h := extension_dispatch_behavior testOps "n.txt" txtFile [Entry.file "g.xml" goodXml] []
  have hskip := h.2.1 "txt" rfl (by decide) (by decide) (by decide)
  exact ⟨rfl, hskip, h.2.2 hskip⟩

/-- C6 counterexample: the claim states that when the persisted index exists
but deserialization fails, the loader falls back to a full rebuild. On the
one-byte blob `[1]` deserialization fails (first conjunct), and `init_model`
panics (`wincode::deserialize(&bytes).unwrap()`, second conjunct) instead of
rebuilding — even though the rebuild over the same configured directories
would have succeeded (third conjunct). -/
theorem corrupt_index_panics_no_rebuild :
    decodeIndex [1] = none ∧
    init_model testOps (some [1]) [some []] = none ∧
    buildModel testOps [some []] = some [] :=
  ⟨rfl, rfl, rfl⟩

/-- C6 amended: when the persisted index file exists but deserialization of
its contents fails, `init_model` panics, aborting the run — it neither falls
back to a rebuild nor silently returns an empty index; when deserialization
succeeds its result is returned unchanged, and the full rebuild runs exactly
when the index file is absent. -/
theorem init_model_corrupt_blob_behavior (ops : TextOps) (bytes : List Nat)
    (dirs : List (Option (List Entry))) :
    (decodeIndex bytes = none → init_model ops (some bytes) dirs = none) ∧
    (∀ m, decodeIndex bytes = some m → init_model ops (some bytes) dirs = some m) ∧
    init_model ops none dirs = buildModel ops dirs := by
  refine ⟨?_, ?_, rfl⟩
  · intro h
    simp [init_model, h]
  · intro m h
    simp [init_model, h]

/-- C6 amended, witness: on the undecodable blob `[1]` the loader panics. -/
theorem init_model_corrupt_blob_behavior_witness :
    decodeIndex [1] = none ∧ init_model testOps (some [1]) [] = none :=
  ⟨rfl, (init_model_corrupt_blob_behavior testOps [1] []).1 rfl⟩

/-- Helper: the scoring fold of `do_query` accumulates exactly the per-term
contributions. -/
theorem docScore_eq_termContrib_sum (ops : TextOps) (model : Index) (data : Document)
    (terms : List String) :
    docScore ops model data terms = (terms.map (termContrib ops model data)).sum := by
  unfold docScore
  have aux : ∀ (l : List String) (init : ℝ),
      l.foldl
        (fun point t =>
          match List.lookup (normalizeTerm ops t) data.words with
          | none => point
          | some count =>
              point +
                ((count : ℝ) / (totalCount data : ℝ)) *
                  Real.logb 2 ((model.length : ℝ) / (docFreq model (normalizeTerm ops t) : ℝ)))
        init = init + (l.map (termContrib ops model data)).sum := by
    intro l
    induction l with
    | nil => intro init; simp
    | cons t ts ih =>
        intro init
        simp only [List.foldl_cons, List.map_cons, List.sum_cons, ih, termContrib]
        cases h : List.lookup (normalizeTerm ops t) data.words with
        | none => simp [h]
        | some count => simp [h]; ring
  simpa using aux terms 0

/-- C1: `do_query` scores a document as the sum, over the query terms, of the
per-term contribution; the contribution of a lowercased-and-stemmed term is 0
when it is absent from the document's map, and otherwise `tf * idf` with
`tf = count / totalCount` and `idf = log2(N / df)` where `N` is the number of
documents in the index and `df` the number of documents containing the term. -/
theorem do_query_score_formula (ops : TextOps) (model : Index) (data : Document)
    (terms : List String) :
    docScore ops model data terms = (terms.map (termContrib ops model data)).sum ∧
    ∀ t, termContrib ops model data t =
      match List.lookup (ops.stem (ops.lower t)) data.words with
      | none => 0
      | some count =>
          ((count : ℝ) / (totalCount data : ℝ)) *
            Real.logb 2 ((model.length : ℝ) / (docFreq model (ops.stem (ops.lower t)) : ℝ)) :=
  ⟨docScore_eq_termContrib_sum ops model data terms, fun _ => rfl⟩

/-- Helper for the tokenizer refinement: folding the character loop from any
intermediate state and then flushing the final word agrees with the spec's
recursive description started at that state. -/
theorem tokenize_fold_spec (ops : TextOps) :
    ∀ (cs : List Char) (cur : String) (m : List (String × Nat)),
      addToMap ops (cs.foldl (tokStep ops) (cur, m)).1 (cs.foldl (tokStep ops) (cur, m)).2
        = specTokenize ops cs cur m := by
  intro cs
  induction cs with
  | nil => intro cur m; rfl
  | cons c cs ih =>
      intro cur m
      simp only [List.foldl_cons]
      cases hb : (ops.isAlphanumeric c || c == apostrophe || c == '-') with
      | true => simp only [tokStep, hb, if_true, specTokenize, ih]
      | false =>
          cases hw : ops.isWhitespace c with
          | true => simp [tokStep, hb, hw, specTokenize, ih]
          | false => simp [tokStep, hb, hw, specTokenize, ih]

/-- C4: the character-scanning tokenizer of `create_document_from_text`
computes exactly the map described by the spec: accumulate a current word
while characters are alphanumeric, an apostrophe or a hyphen; on any other
character flush the current word if non-empty and, if the terminating
character is non-whitespace, flush it as its own single-character term; at
end of input flush the remaining word; flushing lowercases, stems, and bumps
the term's count (inserting it at 1 if absent). -/
theorem tokenizer_matches_spec (ops : TextOps) (text : List Char) :
    create_document_from_text ops text = ⟨specTokenize ops text "" []⟩ :=
  congrArg Document.mk (tokenize_fold_spec ops text "" [])

/-- Helper: `bump` preserves positivity of every stored count. -/
theorem bump_counts_pos {m : List (String × Nat)} (h : ∀ kv ∈ m, 1 ≤ kv.2) (k : String) :
    ∀ kv ∈ bump m k, 1 ≤ kv.2 := by
  induction m with
  | nil => simp [bump]
  | cons kv0 rest ih =>
      obtain ⟨k0, v0⟩ := kv0
      by_cases hk : k0 = k
      · simp only [bump, hk, if_true]
        intro kv hkv
        rcases List.mem_cons.mp hkv with h1 | h1
        · subst h1; omega
        · exact h kv (List.mem_cons_of_mem _ h1)
      · simp only [bump, hk, if_false]
        intro kv hkv
        rcases List.mem_cons.mp hkv with h1 | h1
        · subst h1; exact h (k0, v0) (List.mem_cons_self _ _)
        · exact ih (fun kv hm => h kv (List.mem_cons_of_mem _ hm)) kv h1

/-- Helper: `addToMap` preserves positivity of every stored count. -/
theorem addToMap_counts_pos (ops : TextOps) (w : String) {m : List (String × Nat)}
    (h : ∀ kv ∈ m, 1 ≤ kv.2) : ∀ kv ∈ addToMap ops w m, 1 ≤ kv.2 := by
  unfold addToMap
  split
  · exact h
  · exact bump_counts_pos h _

/-- Helper: every count in a tokenized document is positive. -/
theorem create_document_counts_pos (ops : TextOps) (text : List Char) :
    ∀ kv ∈ (create_document_from_text ops text).words, 1 ≤ kv.2 := by
  unfold create_document_from_text
  have aux : ∀ (cs : List Char) (st : String × List (String × Nat)),
      (∀ kv ∈ st.2, 1 ≤ kv.2) → ∀ kv ∈ (cs.foldl (tokStep ops) st).2, 1 ≤ kv.2 := by
    intro cs
    induction cs with
    | nil => intro st h; exact h
    | cons c cs ih =>
        intro st h
        simp only [List.foldl_cons]
        apply ih
        unfold tokStep
        split
        · exact h
        · cases hw : ops.isWhitespace c <;>
            simp only [hw, Bool.not_true, Bool.not_false, if_true, if_false] <;>
            first
              | exact addToMap_counts_pos ops _ (addToMap_counts_pos ops _ h)
              | exact addToMap_counts_pos ops _ h
  exact addToMap_counts_pos ops _ (aux text ("", []) (by simp))

/-- Helper: a successful association-list lookup is a membership. -/
theorem mem_of_lookup_eq_some {α β : Type} [BEq α] [LawfulBEq α] {m : List (α × β)}
    {k : α} {v : β} (h : List.lookup k m = some v) : (k, v) ∈ m := by
  induction m with
  | nil => simp [List.lookup] at h
  | cons kv rest ih =>
      obtain ⟨k0, v0⟩ := kv
      by_cases hk : k == k0
      · rw [List.lookup, hk] at h
        obtain rfl : v0 = v := by simpa using h
        obtain rfl : k = k0 := by simpa using hk
        exact List.mem_cons_self _ _
      · rw [List.lookup, Bool.of_not_eq_true hk] at h
        exact List.mem_cons_of_mem _ (ih h)

/-- Helper: a member of a list of naturals is at most the list's sum. -/
theorem nat_le_list_sum {l : List Nat} {x : Nat} (h : x ∈ l) : x ≤ l.sum := by
  induction l with
  | nil => cases h
  | cons y ys ih =>
      rw [List.sum_cons]
      rcases List.mem_cons.mp h with h1 | h1
      · subst h1; exact Nat.le_add_right x ys.sum
      · exact le_trans (ih h1) (Nat.le_add_left _ _)

/-- C10: every count stored in a tokenized document's term map is at least 1,
so any term found in the map forces the document's total term count to be at
least 1, and the `tf` division in `do_query` never divides by zero. -/
theorem term_counts_positive (ops : TextOps) (text : List Char) (w : String) (c : Nat)
    (h : List.lookup w (create_document_from_text ops text).words = some c) :
    1 ≤ c ∧ 1 ≤ totalCount (create_document_from_text ops text) ∧
      ((totalCount (create_document_from_text ops text) : ℝ) ≠ 0) := by
  have hmem := mem_of_lookup_eq_some h
  have hc : 1 ≤ c := create_document_counts_pos ops text (w, c) hmem
  have hcsum : c ≤ totalCount (create_document_from_text ops text) :=
    nat_le_list_sum (List.mem_map_of_mem Prod.snd hmem)
  refine ⟨hc, by omega, ?_⟩
  exact_mod_cast (by omega : totalCount (create_document_from_text ops text) ≠ 0)

/-- C10 witness: the text "aa" yields the single term "aa" with count 1 and
total count 1. -/
theorem term_counts_positive_witness :
    List.lookup "aa" (create_document_from_text testOps ['a', 'a']).words = some 1 ∧
    (1 ≤ 1 ∧ 1 ≤ totalCount (create_document_from_text testOps ['a', 'a']) ∧
      ((totalCount (create_document_from_text testOps ['a', 'a']) : ℝ) ≠ 0)) :=
  ⟨rfl, term_counts_positive testOps ['a', 'a'] "aa" 1 rfl⟩

/-- Helper: `df` never exceeds the number of documents in the index. -/
theorem docFreq_le_length (model : Index) (t : String) :
    docFreq model t ≤ model.length :=
  List.length_filter_le _ _

/-- Helper: a single term's contribution to a score is non-negative: `tf` is a
quotient of non-negative casts, and `idf = log2(N / df)` with `df ≤ N`, so the
logarithm's argument is at least 1 whenever `df > 0` (and the whole `idf` term
is 0 by the real-division convention when `df = 0`). -/
theorem termContrib_nonneg (ops : TextOps) (model : Index) (data : Document)
    (t : String) : 0 ≤ termContrib ops model data t := by
  unfold termContrib
  cases h : List.lookup (normalizeTerm ops t) data.words with
  | none => exact le_refl 0
  | some count =>
      apply mul_nonneg
      · exact div_nonneg (Nat.cast_nonneg _) (Nat.cast_nonneg _)
      · rcases Nat.eq_zero_or_pos (docFreq model (normalizeTerm ops t)) with hd | hd
        · simp [hd]
        · apply Real.logb_nonneg (by norm_num)
          rw [one_le_div (by exact_mod_cast hd)]
          exact_mod_cast docFreq_le_length model (normalizeTerm ops t)

/-- Helper: a document of the index that contains a term is itself counted by
`df`, so `df ≥ 1` for such a term. -/
theorem docFreq_pos_of_mem {model : Index} {path : String} {data : Document}
    (hmem : (path, data) ∈ model) {t : String} {c : Nat}
    (h : List.lookup t data.words = some c) : 1 ≤ docFreq model t := by
  have hf : (path, data) ∈ model.filter (fun pd => (List.lookup t pd.2.words).isSome) :=
    List.mem_filter.mpr ⟨hmem, by simp [h]⟩
  have := List.length_pos.mpr (List.ne_nil_of_mem hf)
  unfold docFreq
  omega

/-- Helper: in an index whose key list has no duplicates, a key determines its
document. -/
theorem nodup_keys_functional {m : Index} (h : (m.map Prod.fst).Nodup)
    {p : String} {d1 d2 : Document} (h1 : (p, d1) ∈ m) (h2 : (p, d2) ∈ m) :
    d1 = d2 := by
  induction m with
  | nil => cases h1
  | cons kv rest ih =>
      obtain ⟨k0, v0⟩ := kv
      rw [List.map_cons, List.nodup_cons] at h
      rcases List.mem_cons.mp h1 with e1 | e1 <;> rcases List.mem_cons.mp h2 with e2 | e2
      · rw [Prod.mk.injEq] at e1 e2
        rw [e1.2, e2.2]
      · exfalso
        rw [Prod.mk.injEq] at e1
        apply h.1
        rw [← e1.1]
        exact List.mem_map.mpr ⟨(p, d2), e2, rfl⟩
      · exfalso
        rw [Prod.mk.injEq] at e2
        apply h.1
        rw [← e2.1]
        exact List.mem_map.mpr ⟨(p, d1), e1, rfl⟩
      · exact ih h.2 e1 e2

/-- C8: for a document of the index, the final TF-IDF score is non-negative;
whenever the `idf` denominator `df` is evaluated (i.e. the stemmed, lowercased
term was found in the document), `df ≥ 1`, so the division and `log2` are
well-defined; and a document containing none of the normalized query terms
scores exactly 0 and its path is excluded from the query results. -/
theorem tfidf_score_nonneg_zero_excluded (ops : TextOps) (model : Index)
    (path : String) (data : Document) (terms : List String)
    (hmem : (path, data) ∈ model) (hkeys : (model.map Prod.fst).Nodup) :
    0 ≤ docScore ops model data terms ∧
    (∀ t ∈ terms, ∀ c, List.lookup (normalizeTerm ops t) data.words = some c →
      1 ≤ docFreq model (normalizeTerm ops t)) ∧
    ((∀ t ∈ terms, List.lookup (normalizeTerm ops t) data.words = none) →
      docScore ops model data terms = 0 ∧ path ∉ do_query ops model terms) := by
  refine ⟨?_, ?_, ?_⟩
  · rw [docScore_eq_termContrib_sum]
    apply List.sum_nonneg
    intro x hx
    obtain ⟨t, _, rfl⟩ := List.mem_map.mp hx
    exact termContrib_nonneg ops model data t
  · intro t _ c hc
    exact docFreq_pos_of_mem hmem hc
  · intro habs
    have hzero : docScore ops model data terms = 0 := by
      rw [docScore_eq_termContrib_sum]
      apply List.sum_eq_zero
      intro x hx
      obtain ⟨t, ht, rfl⟩ := List.mem_map.mp hx
      unfold termContrib
      rw [habs t ht]
    refine ⟨hzero, ?_⟩
    intro hin
    unfold do_query at hin
    obtain ⟨pd, hpd, hfst⟩ := List.mem_map.mp hin
    have hpd2 := List.mem_filter.mp hpd
    have hne : pd.2 ≠ 0 := of_decide_eq_true hpd2.2
    have hsorted : pd ∈ (model.map (fun pd => (pd.1, docScore ops model pd.2 terms))) :=
      (List.mergeSort_perm _ byDescendingScore).mem_iff.mp hpd2.1
    obtain ⟨qd, hqd, hq⟩ := List.mem_map.mp hsorted
    have hqpath : qd.1 = path := by rw [← hfst, ← hq]
    have : qd.2 = data := by
      apply nodup_keys_functional hkeys _ hmem
      rw [← hqpath]
      exact hqd
    apply hne
    rw [← hq]
    simp only [this, hzero]

/-- C8 witness: in the one-document index `wModel`, the document scores
non-negatively on the query ["x"], which it does not contain, and its path is
excluded from the results. -/
theorem tfidf_score_nonneg_zero_excluded_witness :
    ("p", wDoc) ∈ wModel ∧ ((wModel.map Prod.fst).Nodup) ∧
    0 ≤ docScore testOps wModel wDoc ["x"] ∧
    docScore testOps wModel wDoc ["x"] = 0 ∧
    "p" ∉ do_query testOps wModel ["x"] := by
  have h := tfidf_score_nonneg_zero_excluded testOps wModel "p" wDoc ["x"]
    (by decide) (by decide)
  have habs : ∀ t ∈ ["x"], List.lookup (normalizeTerm testOps t) wDoc.words = none := by
    decide
  exact ⟨by decide, by decide, h.1, (h.2.2 habs).1, (h.2.2 habs).2⟩

/-- C5: the comparator of `do_query` is total (so the sort never needs an
incomparable case), and the result of `do_query` is obtained from some
permutation of the scored documents that is pairwise sorted by descending
score, by dropping every document whose final score is exactly 0 and keeping
the paths only. -/
theorem do_query_sorted_filtered_paths (ops : TextOps) (model : Index)
    (terms : List String) :
    (∀ x y : String × ℝ, byDescendingScore x y = true ∨ byDescendingScore y x = true) ∧
    ∃ l : List (String × ℝ),
      l.Perm (model.map (fun pd => (pd.1, docScore ops model pd.2 terms))) ∧
      l.Pairwise (fun x y => y.2 ≤ x.2) ∧
      do_query ops model terms = (l.filter (fun pd => decide (pd.2 ≠ 0))).map Prod.fst := by
  constructor
  · intro x y
    simp only [byDescendingScore, decide_eq_true_eq]
    exact le_total y.2 x.2
  · refine ⟨(model.map (fun pd => (pd.1, docScore ops model pd.2 terms))).mergeSort
      byDescendingScore, List.mergeSort_perm _ _, ?_, ?_⟩
    · have hs := @List.sorted_mergeSort _ byDescendingScore
        (fun a b c hab hbc => by
          simp only [byDescendingScore, decide_eq_true_eq] at hab hbc ⊢
          exact le_trans hbc hab)
        (fun a b => by
          simp only [byDescendingScore, Bool.or_eq_true, decide_eq_true_eq]
          exact le_total b.2 a.2)
        (model.map (fun pd => (pd.1, docScore ops model pd.2 terms)))
      exact hs.imp (fun h => by simpa [byDescendingScore, decide_eq_true_eq] using h)
    · rfl

/-- Helper: structure eta for `String`. -/
theorem string_mk_data (s : String) : String.mk s.data = s := rfl

/-- Helper: structure eta for `Document`. -/
theorem document_mk_words (d : Document) : Document.mk d.words = d := rfl

/-- Helper: decoding a varint-encoded natural recovers it and the remaining
bytes. -/
theorem decodeVar_encodeVar (n : Nat) : ∀ rest : List Nat,
    decodeVar (encodeVar n ++ rest) = some (n, rest) := by
  induction n using Nat.strong_induction_on with
  | _ n ih =>
      intro rest
      unfold encodeVar
      split
      · rename_i h
        simp [decodeVar, h]
      · rename_i h
        have hdiv : n / 128 < n :=
          Nat.div_lt_self (by omega) (by norm_num)
        simp only [List.cons_append]
        unfold decodeVar
        rw [if_neg (by omega)]
        rw [ih (n / 128) hdiv rest]
        show some (n % 128 + 128 - 128 + 128 * (n / 128), rest) = some (n, rest)
        have heq : n % 128 + 128 - 128 + 128 * (n / 128) = n := by omega
        rw [heq]

/-- Helper: decoding an encoded character sequence recovers it. -/
theorem decodeChars_encode (cs : List Char) : ∀ rest : List Nat,
    decodeChars cs.length (cs.foldr (fun c acc => encodeVar c.toNat ++ acc) [] ++ rest)
      = some (cs, rest) := by
  induction cs with
  | nil => intro rest; rfl
  | cons c cs ih =>
      intro rest
      simp only [List.foldr_cons, List.length_cons, List.append_assoc]
      unfold decodeChars
      simp [decodeVar_encodeVar, ih rest, Char.ofNat_toNat]

/-- Helper: decoding an encoded string recovers it. -/
theorem decodeString_encodeString (s : String) (rest : List Nat) :
    decodeString (encodeString s ++ rest) = some (s, rest) := by
  unfold encodeString decodeString
  simp only [List.append_assoc, decodeVar_encodeVar]
  rw [decodeChars_encode]

/-- Helper: decoding an encoded term-count list recovers it. -/
theorem decodeWords_encodeWords (l : List (String × Nat)) : ∀ rest : List Nat,
    decodeWords l.length (encodeWords l ++ rest) = some (l, rest) := by
  induction l with
  | nil => intro rest; rfl
  | cons kv l ih =>
      intro rest
      obtain ⟨k, v⟩ := kv
      simp only [encodeWords, List.length_cons, List.append_assoc]
      unfold decodeWords
      simp only [List.append_assoc, decodeString_encodeString, decodeVar_encodeVar]
      rw [ih rest]

/-- Helper: decoding an encoded Document recovers it. -/
theorem decodeDocument_encodeDocument (d : Document) (rest : List Nat) :
    decodeDocument (encodeDocument d ++ rest) = some (d, rest) := by
  unfold encodeDocument decodeDocument
  simp only [List.append_assoc, decodeVar_encodeVar]
  rw [decodeWords_encodeWords]

/-- Helper: decoding encoded Index entries recovers them. -/
theorem decodeEntries_encodeEntries (l : List (String × Document)) : ∀ rest : List Nat,
    decodeEntries l.length (encodeEntries l ++ rest) = some (l, rest) := by
  induction l with
  | nil => intro rest; rfl
  | cons pd l ih =>
      intro rest
      obtain ⟨p, d⟩ := pd
      simp only [encodeEntries, List.length_cons, List.append_assoc]
      unfold decodeEntries
      simp only [List.append_assoc, decodeString_encodeString, decodeDocument_encodeDocument]
      rw [ih rest]

/-- C7: serializing an index of any size — 0, 1 or many documents — and
deserializing the resulting blob yields the index back unchanged: every
document path, every term string and every term count round-trips. -/
theorem index_roundtrip (m : Index) : decodeIndex (encodeIndex m) = some m := by
  unfold encodeIndex decodeIndex
  have h1 := decodeEntries_encodeEntries m []
  rw [List.append_nil] at h1
  simp only [decodeVar_encodeVar]
  rw [h1]
